import Mathlib

/-!
Verification development for the core scheduling engine of the Armada-style
cluster job scheduler described in spec.md.

The repository slice at hand contains the tests of the gang scheduler and of
the Pulsar publisher, the report repository (reports.go), and the scheduler
configuration file.  The gang scheduler, scheduling constraints, node DB and
publisher themselves are not part of the slice, so they are modelled from the
specification (and the behavior pinned down by the tests in the slice); the
report repository is embedded from reports.go directly.

Quantities are rationals (resource amounts such as "cpu"), resource vectors
are functions from resource name to quantity, and all checks quantify over
the configured finite list of resource names, so every operation below is
executable.
-/

namespace ArmadaSpec

set_option allowUnsafeReducibility true in
attribute [semireducible] Rat.mul Rat.add Rat.sub Rat.inv Rat.ofScientific

/-! ## Resource vectors and nodes -/

/-- A resource vector: resource name (e.g. "cpu") to a rational quantity. -/
abbrev ResVec := String → ℚ

/-- The all-zero resource vector. -/
def ResVec.zero : ResVec := fun _ => 0

/-- A vector that is `x` of "cpu" and zero elsewhere. -/
def cpuVec (x : ℚ) : ResVec := fun r => if r = "cpu" then x else 0

/-- Modelled from the spec: a node of the node DB (nodedb package, absent from
the slice).  `alloc p r` is the allocatable amount of resource `r` at
priority `p` (`allocatableByPriority`). -/
structure SchedNode where
  nid : Nat
  alloc : Nat → String → ℚ

/-- Modelled from the spec: a member job of a gang (jobdb package, absent from
the slice): id, queue, priority-class priority, and resource requests. -/
structure GangJob where
  jobId : String
  queue : String
  prio : Nat
  req : ResVec

/-- Modelled from the spec: the scheduling configuration relevant to the gang
scheduler (configuration package, absent from the slice).
`roundCapPool` is the `MaximumResourceFractionToScheduleByPool` entry for the
current pool, when one exists; `perQueueCap p` is the
`MaximumResourceFractionPerQueue` entry for priority `p`, when configured;
`resolution` is the configured indexed-resource `Resolution`
(a non-positive entry means the resource is not quantized). -/
structure SchedCfg where
  resources : List String
  priorities : List Nat
  totalRes : ResVec
  roundCapGlobal : String → ℚ
  roundCapPool : Option (String → ℚ)
  perQueueCap : Nat → Option (String → ℚ)
  resolution : String → ℚ

/-- The effective round cap: the per-pool override when the current pool has
one, otherwise the global `MaximumResourceFractionToSchedule`. -/
def effRoundCap (cfg : SchedCfg) (r : String) : ℚ :=
  match cfg.roundCapPool with
  | some f => f r
  | none => cfg.roundCapGlobal r

/-! ## Node selection (node DB), with quantized indexing -/

/-- Modelled from the spec: resource quantization used for the node-DB index
key.  Quantization rounds the free amount down to a multiple of the
resolution; a non-positive resolution leaves the amount untouched. -/
def quantize (res x : ℚ) : ℚ :=
  if 0 < res then res * (⌊x / res⌋ : ℤ) else x

/-- Exact fit check of a request against a node's allocatable resources at
priority `p` (step 3 of the selection algorithm). -/
def fitsAt (cfg : SchedCfg) (n : SchedNode) (p : Nat) (req : ResVec) : Bool :=
  cfg.resources.all fun r => decide (req r ≤ n.alloc p r)

/-- The index pre-filter: the node is returned by the priority-`p` index walk
iff the request fits within the node's quantized free resources. -/
def indexAdmits (cfg : SchedCfg) (n : SchedNode) (p : Nat) (req : ResVec) : Bool :=
  cfg.resources.all fun r => decide (req r ≤ quantize (cfg.resolution r) (n.alloc p r))

/-- The residual free resources of a node (in configured resource order)
after hypothetically placing the request; nodes are scored by this list,
smallest first ("tightest fit, ties broken lexicographically"). -/
def residuals (cfg : SchedCfg) (n : SchedNode) (p : Nat) (req : ResVec) : List ℚ :=
  cfg.resources.map fun r => n.alloc p r - req r

/-- Lexicographic strict order on rational lists, used to compare residual
vectors. -/
def lexLtQ : List ℚ → List ℚ → Bool
  | [], [] => false
  | [], _ :: _ => true
  | _ :: _, [] => false
  | a :: as, b :: bs => if a < b then true else if b < a then false else lexLtQ as bs

/-- `better cfg p req n m = true` iff node `n` scores strictly better than `m`
for the request: tighter residual fit first, node id as the stable tiebreak. -/
def better (cfg : SchedCfg) (p : Nat) (req : ResVec) (n m : SchedNode) : Bool :=
  let rn := residuals cfg n p req
  let rm := residuals cfg m p req
  if lexLtQ rn rm then true
  else if lexLtQ rm rn then false
  else decide (n.nid < m.nid)

/-- Pick the best-scoring node from a candidate list. -/
def pickBest (cfg : SchedCfg) (p : Nat) (req : ResVec) : List SchedNode → Option SchedNode
  | [] => none
  | n :: rest => some (rest.foldl (fun acc m => if better cfg p req m acc then m else acc) n)

/-- Modelled from the spec: `SelectNodeForJob` of the node DB (absent from the
slice).  Candidates are the nodes admitted by the quantized index walk that
also pass the exact fit check; the best-scoring candidate is returned, or
`none` for NoFit. -/
def SelectNodeForJob (cfg : SchedCfg) (nodes : List SchedNode) (j : GangJob) : Option SchedNode :=
  pickBest cfg j.prio j.req
    (nodes.filter fun n => indexAdmits cfg n j.prio j.req && fitsAt cfg n j.prio j.req)

/-- Node selection as the spec words it "without quantization": the same
algorithm with no index pre-filter, i.e. the exact fit check alone. -/
def SelectNodeForJobUnquantized (cfg : SchedCfg) (nodes : List SchedNode) (j : GangJob) :
    Option SchedNode :=
  pickBest cfg j.prio j.req (nodes.filter fun n => fitsAt cfg n j.prio j.req)

/-- `BindJob`: subtract the requests from `allocatableByPriority[q]` for all
`q ≤ p` where `p` is the job's priority. -/
def bindJob (n : SchedNode) (j : GangJob) : SchedNode :=
  { n with alloc := fun p r => if p ≤ j.prio then n.alloc p r - j.req r else n.alloc p r }

/-- Bind a job on the node with the given id, leaving other nodes untouched. -/
def bindOnNodes (nodes : List SchedNode) (nid : Nat) (j : GangJob) : List SchedNode :=
  nodes.map fun n => if n.nid = nid then bindJob n j else n

/-- Place every member of a gang in order, binding each immediately so later
members see reduced capacity; `none` if any member has no fitting node. -/
def placeAll (cfg : SchedCfg) (nodes : List SchedNode) : List GangJob → Option (List SchedNode)
  | [] => some nodes
  | j :: rest =>
    match SelectNodeForJob cfg nodes j with
    | none => none
    | some n => placeAll cfg (bindOnNodes nodes n.nid j) rest

/-! ## Scheduling constraints and the gang scheduler -/

/-- Modelled from the spec: the mutable per-round scheduling state seen by the
gang scheduler: the node DB snapshot, the round's newly scheduled total
(`scheduledByPriority.total`), per-queue per-priority allocations, and the
ids of the jobs scheduled so far (`scheduledJobs`). -/
structure SchedState where
  nodes : List SchedNode
  scheduledTotal : ResVec
  queueAlloc : String → Nat → String → ℚ
  scheduledJobs : List String

/-- The gang's total request for a resource. -/
def gangTotalReq (g : List GangJob) (r : String) : ℚ :=
  (g.map fun j => j.req r).sum

/-- The gang's total request restricted to members of queue `q` at priority
`p`; used to charge the queue allocations on success. -/
def gangTotalAt (g : List GangJob) (q : String) (p : Nat) (r : String) : ℚ :=
  ((g.filter fun j => j.queue = q && j.prio = p).map fun j => j.req r).sum

/-- Cumulative usage of a queue at or above a priority: resources charged at
priority `p'` count against the caps of every priority `≤ p'`. -/
def usageAtOrAbove (cfg : SchedCfg) (st : SchedState) (q : String) (p : Nat) (r : String) : ℚ :=
  ((cfg.priorities.filter fun p' => p ≤ p').map fun p' => st.queueAlloc q p' r).sum

/-- The round-cap check, performed before admitting a gang: the gang is
admissible iff the amount already newly scheduled this round does not exceed
`effRoundCap × totalResources` for any resource.  The gang's own size is not
counted, so an admitted gang may carry the total past the cap
(the source treats "≤ cap" as admit; pinned by the
MaximumResourceFractionToSchedule tests). -/
def roundCapOk (cfg : SchedCfg) (st : SchedState) : Bool :=
  cfg.resources.all fun r => decide (st.scheduledTotal r ≤ effRoundCap cfg r * cfg.totalRes r)

/-- The per-queue per-priority cap check, performed assuming the full gang
succeeds: cumulative usage of the gang's queue at the gang's priority,
including the whole gang, must stay within the configured fraction.
All members of a gang share queue and priority, so the head determines both;
an unconfigured priority is unconstrained. -/
def perQueueCapOk (cfg : SchedCfg) (st : SchedState) (g : List GangJob) : Bool :=
  match g with
  | [] => true
  | j :: _ =>
    match cfg.perQueueCap j.prio with
    | none => true
    | some cap =>
      cfg.resources.all fun r =>
        decide (usageAtOrAbove cfg st j.queue j.prio r + gangTotalReq g r ≤ cap r * cfg.totalRes r)

/-- The reason a gang was not scheduled. -/
inductive UnschedReason where
  | roundCapExceeded
  | perQueueCapExceeded
  | gangMemberNoFit
  deriving DecidableEq, Repr

/-- Modelled from the spec: `GangScheduler.Schedule` (gang_scheduler.go is
absent from the slice; behavior pinned by gang_scheduler_test.go).
A transaction is opened; members are placed one by one; the constraints are
consulted; on any failure the transaction is rolled back, so the returned
state is exactly the input state; on success the transaction commits: nodes,
round totals, queue allocations and `scheduledJobs` are all updated. -/
def Schedule (cfg : SchedCfg) (st : SchedState) (g : List GangJob) :
    Bool × Option UnschedReason × SchedState :=
  if roundCapOk cfg st then
    if perQueueCapOk cfg st g then
      match placeAll cfg st.nodes g with
      | none => (false, some .gangMemberNoFit, st)
      | some nodes' =>
        (true, none,
          { nodes := nodes'
            scheduledTotal := fun r => st.scheduledTotal r + gangTotalReq g r
            queueAlloc := fun q p r => st.queueAlloc q p r + gangTotalAt g q p r
            scheduledJobs := st.scheduledJobs ++ g.map fun j => j.jobId })
    else (false, some .perQueueCapExceeded, st)
  else (false, some .roundCapExceeded, st)

/-- Run a sequence of gangs through the gang scheduler, as the test harness
does, collecting the indices of the gangs that were scheduled. -/
def runGangs (cfg : SchedCfg) (st : SchedState) (gangs : List (List GangJob)) :
    List Nat × SchedState :=
  let step := fun (acc : List Nat × SchedState × Nat) (g : List GangJob) =>
    let res := Schedule cfg acc.2.1 g
    if res.1 then (acc.1 ++ [acc.2.2], res.2.2, acc.2.2 + 1)
    else (acc.1, res.2.2, acc.2.2 + 1)
  let out := gangs.foldl step ([], st, 0)
  (out.1, out.2.1)

/-- The indices of the scheduled gangs (`ExpectedScheduledIndices` of the
tests). -/
def scheduledIndices (cfg : SchedCfg) (st : SchedState) (gangs : List (List GangJob)) :
    List Nat :=
  (runGangs cfg st gangs).1

/-! ## Concrete fixtures shared by the test scenarios -/

/-- A node of 32 CPU at every priority (testfixtures.N32CpuNodes). -/
def n32CpuNode (i : Nat) : SchedNode :=
  ⟨i, fun _ r => if r = "cpu" then 32 else 0⟩

/-- A gang of `size` jobs of `c` CPU each from the given queue at the given
priority (testfixtures.N1CpuJobs / N16CpuJobs). -/
def nCpuGang (q : String) (p : Nat) (size : Nat) (c : ℚ) : List GangJob :=
  (List.range size).map fun i => ⟨"job-" ++ toString i, q, p, cpuVec c⟩

/-- The base scheduling configuration of the tests: cpu only, priorities
0..3, no binding caps, resolution 1. -/
def baseCfg : SchedCfg where
  resources := ["cpu"]
  priorities := [0, 1, 2, 3]
  totalRes := cpuVec 32
  roundCapGlobal := fun _ => 1
  roundCapPool := none
  perQueueCap := fun _ => none
  resolution := fun _ => 1

/-- The initial round state over the given nodes: nothing scheduled yet. -/
def initState (nodes : List SchedNode) : SchedState :=
  ⟨nodes, ResVec.zero, fun _ _ _ => 0, []⟩

/-- The round cap of the MaximumResourceFractionToSchedule test: cpu 0.5. -/
def capHalf : String → ℚ := fun r => if r = "cpu" then (1 : ℚ) / 2 else 1

/-- The per-pool round cap override of the
MaximumResourceFractionToScheduleByPool test: cpu 2/32. -/
def capPool : String → ℚ := fun r => if r = "cpu" then (2 : ℚ) / 32 else 1

/-- The configuration of the MaximumResourceFractionToSchedule test. -/
def cfgRoundHalf : SchedCfg := { baseCfg with roundCapGlobal := capHalf }

/-- The gangs of the MaximumResourceFractionToSchedule test: 8, 16 and 8
one-CPU jobs from queue A at priority 0. -/
def gangsRoundHalf : List (List GangJob) :=
  [nCpuGang "A" 0 8 1, nCpuGang "A" 0 16 1, nCpuGang "A" 0 8 1]

/-- The configuration of the MaximumResourceFractionToScheduleByPool test:
global cap cpu 0.5 with a pool override of cpu 2/32 for the current pool. -/
def cfgPoolOverride : SchedCfg :=
  { baseCfg with roundCapGlobal := capHalf, roundCapPool := some capPool }

/-- The gangs of the MaximumResourceFractionToScheduleByPool test: five
one-CPU singletons from queue A at priority 0. -/
def gangsPoolOverride : List (List GangJob) :=
  List.replicate 5 (nCpuGang "A" 0 1 1)

/-- A per-queue cap of `x/32` cpu. -/
def qcap (x : ℚ) : String → ℚ := fun r => if r = "cpu" then x / 32 else 1

/-- The per-queue per-priority caps of the MaximumResourceFractionPerQueue
test: 3/32 at priority 3, 10/32 at priority 2, 15/32 at priority 1, 1.0 at
priority 0. -/
def perQueueCapsScenario : Nat → Option (String → ℚ) := fun p =>
  if p = 3 then some (qcap 3)
  else if p = 2 then some (qcap 10)
  else if p = 1 then some (qcap 15)
  else some (qcap 32)

/-- The configuration of the MaximumResourceFractionPerQueue test. -/
def cfgPerQueue : SchedCfg := { baseCfg with perQueueCap := perQueueCapsScenario }

/-- The gangs of the MaximumResourceFractionPerQueue test, in submission
order: p3 x4, p3 x3, p2 x8, p2 x7, p1 x6, p1 x5, p0 x18, p0 x17, all of
one-CPU jobs from queue A. -/
def gangsPerQueue : List (List GangJob) :=
  [nCpuGang "A" 3 4 1, nCpuGang "A" 3 3 1, nCpuGang "A" 2 8 1, nCpuGang "A" 2 7 1,
    nCpuGang "A" 1 6 1, nCpuGang "A" 1 5 1, nCpuGang "A" 0 18 1, nCpuGang "A" 0 17 1]

/-- The configuration of the resolution test: three 32-CPU nodes (total 96)
and a cpu resolution of 16. -/
def cfgResolution16 : SchedCfg :=
  { baseCfg with totalRes := cpuVec 96, resolution := fun r => if r = "cpu" then 16 else 1 }

/-- The gangs of the resolution test: six 16-CPU singletons from queue A at
priority 0. -/
def gangsResolution16 : List (List GangJob) :=
  List.replicate 6 (nCpuGang "A" 0 1 16)

/-- The 33-member gang of one-CPU jobs of the "simple failure" test. -/
def gang33 : List GangJob := nCpuGang "A" 0 33 1

/-! ## Pulsar publisher -/

/-- A failed send to the Pulsar broker. -/
inductive PubError where
  | brokerError
  deriving DecidableEq, Repr

/-- An `EventSequence` keyed by its job-set name. -/
structure EventSeq where
  jobSetName : String
  numEvents : Nat

/-- Modelled from the spec: `PulsarPublisher.PublishMessages` (publisher.go
is absent from the slice; behavior pinned by publisher_test.go).  The round's
plan is computed regardless, but messages are handed to the producer only
when the leader token is still valid at the moment of publish; with an
invalid token the plan is discarded silently and no error is returned.
`sendFails i` says whether the broker fails the `i`-th send.  Returns the
error outcome together with the list of messages actually handed to the
producer. -/
def PublishMessages (tokenValid : Bool) (es : List EventSeq) (sendFails : Nat → Bool) :
    Except PubError Unit × List EventSeq :=
  if tokenValid then
    (if (List.range es.length).any sendFails then .error .brokerError else .ok (), es)
  else (.ok (), [])

/-- Marker sends to each partition in the given order: each partition gets a
marker message whose explicit partition key is the decimal partition index;
the first failed send surfaces as an error.  Returns the publish outcome
(the count of successfully published markers on success) and the partition
keys actually sent to. -/
def publishMarkersFrom (sendFails : Nat → Bool) : List Nat → Except PubError Nat × List String
  | [] => (Except.ok 0, [])
  | i :: rest =>
    if sendFails i then (Except.error PubError.brokerError, [toString i])
    else
      let r := publishMarkersFrom sendFails rest
      (r.1.map fun k => k + 1, toString i :: r.2)

/-- Modelled from the spec: `PulsarPublisher.PublishMarkers` (publisher.go is
absent from the slice; behavior pinned by publisher_test.go).  After a
scheduling round a marker message is sent to every one of the
`numPartitions` partitions of the topic. -/
def PublishMarkers (numPartitions : Nat) (sendFails : Nat → Bool) :
    Except PubError Nat × List String :=
  publishMarkersFrom sendFails (List.range numPartitions)

/-! ## Report repository: the write path of AddSchedulingContext

From reports.go: `AddSchedulingContext` extracts the job and queue scheduling
contexts from a scheduling context and stores the job contexts first (one
LRU-cache insertion each), then the queue contexts (one atomic map swap),
then the scheduling context itself (one atomic map swap), all while holding
the writer mutex.  Readers are lock-free and may observe the published state
between any two of these atomic steps.  We model the published key sets: the
job-id keys of the bounded LRU cache, the queue keys of the queue-context
maps, and the list of stored scheduling contexts. -/

/-- A scheduling context as the repository stores it: the queue keys and the
job ids it references (extractQueueAndJobContexts). -/
structure StoredSctx where
  queues : List String
  jobIds : List String
  deriving DecidableEq, Repr

/-- The reader-visible published state of the repository. -/
structure RepoCore where
  jobKeys : List String
  queueKeys : List String
  sctxs : List StoredSctx
  deriving DecidableEq, Repr

/-- One atomic publication step of the writer. -/
inductive RepoOp where
  | storeJob (j : String)
  | storeQueues (qs : List String)
  | storeSctx (s : StoredSctx)

/-- The job LRU cache (hashicorp/golang-lru) as used by
addJobSchedulingContext: a present key keeps its slot (PeekOrAdd); a new key
is appended, evicting the oldest entry when the cache already holds `cap`
entries. -/
def lruAdd (cap : Nat) (ids : List String) (j : String) : List String :=
  if j ∈ ids then ids
  else if ids.length < cap then ids ++ [j]
  else ids.tail ++ [j]

/-- Apply one atomic publication step. -/
def applyOp (cap : Nat) (st : RepoCore) : RepoOp → RepoCore
  | .storeJob j => { st with jobKeys := lruAdd cap st.jobKeys j }
  | .storeQueues qs => { st with queueKeys := st.queueKeys ++ qs }
  | .storeSctx s => { st with sctxs := st.sctxs ++ [s] }

/-- The publication steps of one `AddSchedulingContext` call, in source
order: job contexts first, then the queue contexts, then the scheduling
context itself. -/
def opsOfAdd (s : StoredSctx) : List RepoOp :=
  s.jobIds.map RepoOp.storeJob ++ [RepoOp.storeQueues s.queues, RepoOp.storeSctx s]

/-- Run a sequence of publication steps. -/
def runOps (cap : Nat) (st : RepoCore) (ops : List RepoOp) : RepoCore :=
  ops.foldl (applyOp cap) st

/-- The freshly created repository: nothing published. -/
def emptyRepoCore : RepoCore := ⟨[], [], []⟩

/-- The published state after a sequence of complete `AddSchedulingContext`
calls (writers serialize on the mutex). -/
def repoStateAfter (cap : Nat) (ws : List StoredSctx) : RepoCore :=
  ws.foldl (fun st s => runOps cap st (opsOfAdd s)) emptyRepoCore

/-- Any state a lock-free reader can observe: the writers `ws` have
completed and the writer for `w` has performed its first `k` atomic steps.
(`k = 0` is the state between two writers; `k ≥ |opsOfAdd w|` is the state
after `w` completes.) -/
def observedRepoState (cap : Nat) (ws : List StoredSctx) (w : StoredSctx) (k : Nat) : RepoCore :=
  runOps cap (repoStateAfter cap ws) ((opsOfAdd w).take k)

/-- The reader-closure property: every stored scheduling context only
references queue keys and job ids that are present in the published maps. -/
def repoClosed (st : RepoCore) : Prop :=
  ∀ s ∈ st.sctxs, (∀ q ∈ s.queues, q ∈ st.queueKeys) ∧ (∀ j ∈ s.jobIds, j ∈ st.jobKeys)

/-- The queue half of reader-closure: every stored scheduling context only
references queue keys present in the published queue maps.  Unlike job
contexts, queue contexts are never evicted, so this half holds with no
proviso. -/
def queueClosed (st : RepoCore) : Prop :=
  ∀ s ∈ st.sctxs, ∀ q ∈ s.queues, q ∈ st.queueKeys

instance (st : RepoCore) : Decidable (repoClosed st) := by
  unfold repoClosed; infer_instance

/-- The total number of job-context insertions performed by a sequence of
`AddSchedulingContext` calls. -/
def totalJobStores (ws : List StoredSctx) : Nat :=
  (ws.map fun s => s.jobIds.length).sum

/-! ## Report repository: the read path (reports.go) -/

/-- A queue scheduling context as the report queries render it
(schedulercontext package, absent from the slice): only its report string
matters to reports.go. -/
structure QueueCtx where
  reportStr : String
  deriving DecidableEq, Repr

/-- A scheduling context as the report queries render it. -/
structure SchedCtxRep where
  reportStr : String
  deriving DecidableEq, Repr

/-- A job scheduling context as the report queries render it. -/
structure JobCtx where
  reportStr : String
  deriving DecidableEq, Repr

/-- Association-list lookup, standing for Go map indexing. -/
def lookupA {α : Type} (k : String) : List (String × α) → Option α
  | [] => none
  | (k', v) :: rest => if k' = k then some v else lookupA k rest

/-- strings.TrimSpace: drop leading and trailing whitespace. -/
def trimSpace (s : String) : String :=
  ⟨((s.data.dropWhile Char.isWhitespace).reverse.dropWhile Char.isWhitespace).reverse⟩

/-- The published read-only state of the SchedulingContextRepository, as the
report queries consult it: the sorted executor ids, the three
most-recent-scheduling-context maps, the three per-queue maps (queue, then
executor), and the bounded job-context cache (job id, then executor). -/
structure ReportRepo where
  sortedExecutorIds : List String
  sctxByExecutor : List (String × SchedCtxRep)
  successfulSctxByExecutor : List (String × SchedCtxRep)
  preemptingSctxByExecutor : List (String × SchedCtxRep)
  qctxByExecutorByQueue : List (String × List (String × QueueCtx))
  successfulQctxByExecutorByQueue : List (String × List (String × QueueCtx))
  preemptingQctxByExecutorByQueue : List (String × List (String × QueueCtx))
  jctxByExecutorByJobId : List (String × List (String × JobCtx))

/-- One rendered attempt line of a queue or scheduling report: the indented
report of the context when one is stored, and the literal "none" line
otherwise (reports.go; the column expansion performed by text/tabwriter is
not modelled). -/
def attemptLine (label : String) : Option String → String
  | some s => "\t" ++ label ++ ":\n" ++ s
  | none => "\t" ++ label ++ ": none\n"

/-- The three per-executor lookups of getQueueReportString: most recent,
most recent successful, most recent preempting. -/
def queueReportEntry (repo : ReportRepo) (queue ex : String) :
    Option QueueCtx × Option QueueCtx × Option QueueCtx :=
  ((lookupA queue repo.qctxByExecutorByQueue).bind (lookupA ex),
    (lookupA queue repo.successfulQctxByExecutorByQueue).bind (lookupA ex),
    (lookupA queue repo.preemptingQctxByExecutorByQueue).bind (lookupA ex))

/-- getQueueReportString: one block per sorted executor id, each with the
three attempt lines. -/
def getQueueReportString (repo : ReportRepo) (queue : String) : String :=
  String.join (repo.sortedExecutorIds.map fun ex =>
    let e := queueReportEntry repo queue ex
    ex ++ ":\n"
      ++ attemptLine "Most recent attempt" (e.1.map fun q => q.reportStr)
      ++ attemptLine "Most recent successful attempt" (e.2.1.map fun q => q.reportStr)
      ++ attemptLine "Most recent preempting attempt" (e.2.2.map fun q => q.reportStr))

/-- An error of the report gRPC endpoints. -/
inductive ReportErr where
  | invalidArgument (name value : String)
  deriving DecidableEq, Repr

/-- GetQueueReport: trims the requested queue name and always returns a
(non-error) report built by getQueueReportString. -/
def GetQueueReport (repo : ReportRepo) (queueName : String) : Except ReportErr String :=
  .ok (getQueueReportString repo (trimSpace queueName))

/-- The three per-executor lookups of the unfiltered scheduling report. -/
def schedulingReportEntry (repo : ReportRepo) (ex : String) :
    Option SchedCtxRep × Option SchedCtxRep × Option SchedCtxRep :=
  (lookupA ex repo.sctxByExecutor,
    lookupA ex repo.successfulSctxByExecutor,
    lookupA ex repo.preemptingSctxByExecutor)

/-- GetSchedulingReport for an unfiltered request: one block per sorted
executor id with the three attempt lines (schedulingReport.ReportString);
always a non-error report. -/
def GetSchedulingReport (repo : ReportRepo) : Except ReportErr String :=
  .ok (String.join (repo.sortedExecutorIds.map fun ex =>
    let e := schedulingReportEntry repo ex
    ex ++ ":\n"
      ++ attemptLine "Most recent attempt" (e.1.map fun s => s.reportStr)
      ++ attemptLine "Most recent successful attempt" (e.2.1.map fun s => s.reportStr)
      ++ attemptLine "Most recent preempting attempt" (e.2.2.map fun s => s.reportStr)))

/-- getJobReportString: one line or block per sorted executor id; executors
with no stored job context for the id render the literal
"no recent attempt" line. -/
def getJobReportString (repo : ReportRepo) (jobId : String) : String :=
  String.join (repo.sortedExecutorIds.map fun ex =>
    match (lookupA jobId repo.jctxByExecutorByJobId).bind (lookupA ex) with
    | some j => ex ++ ":\n" ++ "\t" ++ j.reportStr
    | none => ex ++ ": no recent attempt\n")

/-- oklog/ulid Parse (non-strict), as called by GetJobReport: rejects a
string whose byte length is not 26 and a first byte above the Crockford
base32 overflow bound, the character 7 (code 55). -/
def ulidParseOk (s : String) : Bool :=
  s.utf8ByteSize == 26 &&
    (match s.data with
      | [] => false
      | c :: _ => decide (c.toNat ≤ 55))

/-- GetJobReport: trims the requested job id; a job id that does not parse
as a ULID yields an InvalidArgument error carrying the untrimmed request
value; otherwise the (non-error) report built by getJobReportString. -/
def GetJobReport (repo : ReportRepo) (requestJobId : String) : Except ReportErr String :=
  let jobId := (trimSpace requestJobId)
  if ulidParseOk jobId then .ok (getJobReportString repo jobId)
  else .error (.invalidArgument "jobId" requestJobId)

/-- A concrete repository with one known executor and nothing stored for any
queue or job, used to witness the absent-entry report theorems. -/
def emptyReportRepo : ReportRepo :=
  ⟨["executor"], [], [], [], [], [], [], []⟩

/-! ## Theorems -/

set_option maxRecDepth 100000

/-- C1.  Gang atomicity: for every round state and every gang handed to the
gang scheduler's Schedule, either the gang is scheduled and every member job
appears in `scheduledJobs`, or the returned state is exactly the input state
(no member placed).  In particular, for one node with 32 CPU and a single
33-member gang of 1-CPU jobs, Schedule returns not-ok and the node is left
empty (32 CPU still allocatable at priority 0). -/
theorem Schedule_gang_atomic :
    (∀ (cfg : SchedCfg) (st : SchedState) (g : List GangJob),
      ((Schedule cfg st g).1 = true ∧
        (Schedule cfg st g).2.2.scheduledJobs = st.scheduledJobs ++ g.map fun j => j.jobId) ∨
      ((Schedule cfg st g).1 = false ∧ (Schedule cfg st g).2.2 = st)) ∧
    ((Schedule baseCfg (initState [n32CpuNode 0]) gang33).1 = false ∧
      (Schedule baseCfg (initState [n32CpuNode 0]) gang33).2.2.nodes.map
        (fun n => n.alloc 0 "cpu") = [32]) := by
  refine ⟨?_, by decide, by decide⟩
  intro cfg st g
  unfold Schedule
  by_cases h1 : roundCapOk cfg st = true
  · rw [if_pos h1]
    by_cases h2 : perQueueCapOk cfg st g = true
    · rw [if_pos h2]
      cases hp : placeAll cfg st.nodes g with
      | none => exact Or.inr ⟨rfl, rfl⟩
      | some nodes' => exact Or.inl ⟨rfl, rfl⟩
    · rw [if_neg h2]
      exact Or.inr ⟨rfl, rfl⟩
  · rw [if_neg h1]
    exact Or.inr ⟨rfl, rfl⟩

/-- C2 (counterexample).  The claim "after the round,
scheduledByPriority.total ≤ roundCap × totalResources per resource" fails on
the code's own pinned behavior: with a global round cap of cpu 0.5 on one
32-CPU node (cap 16), the gangs of 8, 16 and 8 one-CPU jobs schedule with
indices {0, 1} — exactly as the MaximumResourceFractionToSchedule test
expects — and leave 24 CPU newly scheduled, which exceeds the 16-CPU cap. -/
theorem roundCap_post_round_bound_fails :
    scheduledIndices cfgRoundHalf (initState [n32CpuNode 0]) gangsRoundHalf = [0, 1] ∧
    ¬ ((runGangs cfgRoundHalf (initState [n32CpuNode 0]) gangsRoundHalf).2.scheduledTotal "cpu"
        ≤ effRoundCap cfgRoundHalf "cpu" * cfgRoundHalf.totalRes "cpu") := by
  exact ⟨by decide, by decide⟩

/-- C2 (amended).  The round cap gates admission rather than bounding the
post-round total: a gang is admitted only if, before its admission, the
round's newly scheduled total is at most roundCap × totalResources for every
resource (per-pool override taking precedence over the global cap); an
admitted gang may carry the total past the cap. -/
theorem Schedule_admitted_gang_within_roundCap (cfg : SchedCfg) (st : SchedState)
    (g : List GangJob) (h : (Schedule cfg st g).1 = true) :
    ∀ r ∈ cfg.resources, st.scheduledTotal r ≤ effRoundCap cfg r * cfg.totalRes r := by
  intro r hr
  have hc : roundCapOk cfg st = true := by
    by_contra hc
    have hc' : roundCapOk cfg st = false := Bool.not_eq_true _ ▸ Bool.of_not_eq_true hc
    unfold Schedule at h
    rw [if_neg (by simp [hc'])] at h
    exact Bool.false_ne_true h
  unfold roundCapOk at hc
  exact of_decide_eq_true (List.all_eq_true.mp hc r hr)

/-- Witness for C2 (amended): the first 1-CPU gang of the pool-override
scenario is admitted, and indeed nothing was scheduled before it, which is
within the 2-CPU effective cap. -/
theorem Schedule_admitted_gang_within_roundCap_witness :
    (initState [n32CpuNode 0]).scheduledTotal "cpu"
      ≤ effRoundCap cfgPoolOverride "cpu" * cfgPoolOverride.totalRes "cpu" :=
  Schedule_admitted_gang_within_roundCap cfgPoolOverride (initState [n32CpuNode 0])
    (nCpuGang "A" 0 1 1) (by decide) "cpu" (by decide)

/-- C3.  With one 32-CPU node and per-queue per-priority caps 3/32 at
priority 3, 10/32 at priority 2, 15/32 at priority 1 and 1.0 at priority 0,
scheduling the eight gangs of 1-CPU jobs from queue A in order p3x4, p3x3,
p2x8, p2x7, p1x6, p1x5, p0x18, p0x17 schedules exactly the gangs at indices
1, 3, 5 and 7. -/
theorem perQueue_priority_caps_scenario :
    scheduledIndices cfgPerQueue (initState [n32CpuNode 0]) gangsPerQueue = [1, 3, 5, 7] := by
  decide

/-- C6.  With one 32-CPU node in pool "pool", a global round cap of cpu 0.5
and a pool override of cpu 2/32, scheduling five 1-CPU singleton gangs in
order schedules exactly the first three (indices 0, 1, 2): the cap gates
admission with "≤ cap admits", so the cap-straddling third job is still
scheduled. -/
theorem roundCap_pool_override_scenario :
    scheduledIndices cfgPoolOverride (initState [n32CpuNode 0]) gangsPoolOverride = [0, 1, 2] := by
  decide

/-- C7.  For every list of event sequences and every broker behavior,
calling PublishMessages with an invalid (expired) leader token publishes no
messages and returns no error: the plan is discarded silently. -/
theorem publishMessages_not_leader_noop :
    ∀ (es : List EventSeq) (sendFails : Nat → Bool),
      PublishMessages false es sendFails = (Except.ok (), []) := by
  intro es sendFails
  rfl

/-- Marker sends over a list of partitions all of whose sends succeed:
every partition receives its marker and the published count is the number
of partitions. -/
theorem publishMarkersFrom_ok (sendFails : Nat → Bool) (l : List Nat)
    (h : ∀ i ∈ l, sendFails i = false) :
    publishMarkersFrom sendFails l = (Except.ok l.length, l.map fun i => toString i) := by
  induction l with
  | nil => rfl
  | cons i rest ih =>
    have hi := h i (List.mem_cons_self i rest)
    have hrest : ∀ x ∈ rest, sendFails x = false := fun x hx => h x (List.mem_cons_of_mem _ hx)
    unfold publishMarkersFrom
    rw [hi]
    simp [ih hrest, Except.map]

/-- Marker sends over a list of partitions one of whose sends fails: the
overall outcome is an error. -/
theorem publishMarkersFrom_err (sendFails : Nat → Bool) (l : List Nat)
    (h : ∃ i ∈ l, sendFails i = true) :
    ∃ e, (publishMarkersFrom sendFails l).1 = Except.error e := by
  induction l with
  | nil =>
    obtain ⟨i, hi, _⟩ := h
    exact absurd hi (List.not_mem_nil i)
  | cons i rest ih =>
    unfold publishMarkersFrom
    cases hfi : sendFails i with
    | true => exact ⟨PubError.brokerError, rfl⟩
    | false =>
      obtain ⟨x, hx, hfx⟩ := h
      rcases List.mem_cons.mp hx with rfl | hx'
      · rw [hfi] at hfx
        cases hfx
      · obtain ⟨e, he⟩ := ih ⟨x, hx', hfx⟩
        refine ⟨e, ?_⟩
        show (publishMarkersFrom sendFails rest).1.map (fun k => k + 1) = Except.error e
        rw [he]
        rfl

/-- C8.  After a scheduling round, PublishMarkers sends one marker message
to every partition of the topic: when all sends succeed it returns the
number of partitions as the published count and the list of partition keys
sent to is exactly the list of all partitions; if any marker send fails it
returns an error. -/
theorem publishMarkers_all_partitions :
    (∀ (n : Nat) (sendFails : Nat → Bool), (∀ i, i < n → sendFails i = false) →
      PublishMarkers n sendFails = (Except.ok n, (List.range n).map fun i => toString i)) ∧
    (∀ (n : Nat) (sendFails : Nat → Bool), (∃ i, i < n ∧ sendFails i = true) →
      ∃ e, (PublishMarkers n sendFails).1 = Except.error e) := by
  constructor
  · intro n f h
    unfold PublishMarkers
    rw [publishMarkersFrom_ok f _ fun i hi => h i (List.mem_range.mp hi)]
    rw [List.length_range]
  · intro n f hex
    obtain ⟨i, hin, hfi⟩ := hex
    exact publishMarkersFrom_err f _ ⟨i, List.mem_range.mpr hin, hfi⟩

/-- Witness for C8: with three partitions and a broker that accepts every
send, all three markers are published, to keys "0", "1", "2". -/
theorem publishMarkers_all_partitions_witness :
    PublishMarkers 3 (fun _ => false) = (Except.ok 3, ["0", "1", "2"]) := by
  rw [publishMarkers_all_partitions.1 3 (fun _ => false) fun i _ => rfl]
  rfl

/-- Quantization changes no admission decision for a request that is an
exact multiple of a positive resolution: the request fits within the
rounded-down free amount iff it fits within the exact free amount. -/
theorem le_quantize_iff (res x q : ℚ) (hres : 0 < res) (k : ℕ) (hq : q = (k : ℚ) * res) :
    q ≤ quantize res x ↔ q ≤ x := by
  unfold quantize
  rw [if_pos hres]
  constructor
  · intro h
    refine h.trans ?_
    calc res * (⌊x / res⌋ : ℚ) ≤ res * (x / res) :=
          mul_le_mul_of_nonneg_left (Int.floor_le _) hres.le
      _ = x := by field_simp
  · intro h
    subst hq
    have hk : (k : ℚ) ≤ x / res := (le_div_iff₀ hres).mpr h
    have hk2 : (k : ℤ) ≤ ⌊x / res⌋ := Int.le_floor.mpr (by exact_mod_cast hk)
    calc (k : ℚ) * res ≤ (⌊x / res⌋ : ℚ) * res :=
          mul_le_mul_of_nonneg_right (by exact_mod_cast hk2) hres.le
      _ = res * (⌊x / res⌋ : ℚ) := mul_comm _ _

/-- C4.  Quantization safety: for any job whose every requested resource is
an exact (natural) multiple of that resource's positive configured
Resolution, node selection returns the same decision (same node, or NoFit)
with quantized indexing as without it; concretely, with three 32-CPU nodes
and cpu resolution 16, six 16-CPU singleton gangs are all scheduled. -/
theorem quantization_safe :
    (∀ (cfg : SchedCfg) (nodes : List SchedNode) (j : GangJob),
      (∀ r ∈ cfg.resources, 0 < cfg.resolution r ∧
        ∃ k : ℕ, j.req r = (k : ℚ) * cfg.resolution r) →
      SelectNodeForJob cfg nodes j = SelectNodeForJobUnquantized cfg nodes j) ∧
    scheduledIndices cfgResolution16 (initState [n32CpuNode 0, n32CpuNode 1, n32CpuNode 2])
      gangsResolution16 = [0, 1, 2, 3, 4, 5] := by
  refine ⟨?_, by decide⟩
  intro cfg nodes j hmul
  unfold SelectNodeForJob SelectNodeForJobUnquantized
  congr 1
  apply List.filter_congr
  intro n _
  cases hf : fitsAt cfg n j.prio j.req with
  | false => rw [Bool.and_false]
  | true =>
    rw [Bool.and_true]
    unfold fitsAt at hf
    unfold indexAdmits
    apply List.all_eq_true.mpr
    intro r hr
    obtain ⟨hres, k, hk⟩ := hmul r hr
    have hfit := of_decide_eq_true (List.all_eq_true.mp hf r hr)
    exact decide_eq_true ((le_quantize_iff (cfg.resolution r) (n.alloc j.prio r)
      (j.req r) hres k hk).mpr hfit)

/-- Witness for C4: a single 16-CPU job against one 32-CPU node under cpu
resolution 16 selects the same node with and without quantization. -/
theorem quantization_safe_witness :
    SelectNodeForJob cfgResolution16 [n32CpuNode 0] ⟨"job-0", "A", 0, cpuVec 16⟩ =
      SelectNodeForJobUnquantized cfgResolution16 [n32CpuNode 0] ⟨"job-0", "A", 0, cpuVec 16⟩ :=
  quantization_safe.1 cfgResolution16 [n32CpuNode 0] ⟨"job-0", "A", 0, cpuVec 16⟩ (by
    intro r hr
    have hr' : r = "cpu" := by simpa [cfgResolution16, baseCfg] using hr
    subst hr'
    refine ⟨by norm_num [cfgResolution16, baseCfg], 1, ?_⟩
    norm_num [cpuVec, cfgResolution16, baseCfg])

/-- Folding job-context insertions into the LRU cache never evicts while the
budget of remaining insertions fits the capacity: existing keys stay, every
inserted key is present afterwards, and the cache size stays within the
budget. -/
theorem jobFold_mem (cap : Nat) (js : List String) :
    ∀ ids : List String, ids.length + js.length ≤ cap →
      (∀ x ∈ ids, x ∈ js.foldl (lruAdd cap) ids) ∧
      (∀ j ∈ js, j ∈ js.foldl (lruAdd cap) ids) ∧
      (js.foldl (lruAdd cap) ids).length ≤ ids.length + js.length := by
  induction js with
  | nil =>
    intro ids _
    exact ⟨fun x hx => hx, fun j hj => absurd hj (List.not_mem_nil j), by simp⟩
  | cons j rest ih =>
    intro ids hbud
    rw [List.foldl_cons]
    by_cases hj : j ∈ ids
    · have hstep : lruAdd cap ids j = ids := by
        unfold lruAdd; rw [if_pos hj]
      rw [hstep]
      have hbud' : ids.length + rest.length ≤ cap := by
        simp only [List.length_cons] at hbud; omega
      obtain ⟨m1, m2, m3⟩ := ih ids hbud'
      refine ⟨m1, ?_, ?_⟩
      · intro x hx
        rcases List.mem_cons.mp hx with rfl | hx'
        · exact m1 x hj
        · exact m2 x hx'
      · simp only [List.length_cons]; omega
    · have hlt : ids.length < cap := by
        simp only [List.length_cons] at hbud; omega
      have hstep : lruAdd cap ids j = ids ++ [j] := by
        unfold lruAdd; rw [if_neg hj, if_pos hlt]
      rw [hstep]
      have hbud' : (ids ++ [j]).length + rest.length ≤ cap := by
        simp only [List.length_append, List.length_cons, List.length_nil, List.length_cons] at *
        omega
      obtain ⟨m1, m2, m3⟩ := ih (ids ++ [j]) hbud'
      refine ⟨fun x hx => m1 x (List.mem_append_left _ hx), ?_, ?_⟩
      · intro x hx
        rcases List.mem_cons.mp hx with rfl | hx'
        · exact m1 x (List.mem_append_right _ (by simp))
        · exact m2 x hx'
      · simp only [List.length_append, List.length_cons, List.length_nil] at m3 ⊢
        omega

/-- Running the job-context insertions of a writer touches only the LRU job
keys. -/
theorem runOps_storeJobs (cap : Nat) (js : List String) :
    ∀ st : RepoCore, runOps cap st (js.map RepoOp.storeJob) =
      { st with jobKeys := js.foldl (lruAdd cap) st.jobKeys } := by
  induction js with
  | nil => intro st; rfl
  | cons j rest ih =>
    intro st
    rw [List.map_cons]
    show runOps cap (applyOp cap st (RepoOp.storeJob j)) (rest.map RepoOp.storeJob) = _
    rw [ih]
    rfl

/-- Splitting a run of publication steps. -/
theorem runOps_append (cap : Nat) (st : RepoCore) (l1 l2 : List RepoOp) :
    runOps cap st (l1 ++ l2) = runOps cap (runOps cap st l1) l2 := by
  simp [runOps]

/-- Any prefix of one AddSchedulingContext publication preserves
reader-closure, provided the writer's job insertions fit the remaining LRU
capacity; job and queue keys only grow, and the cache stays within budget. -/
theorem runOps_add_closed (cap : Nat) (s : StoredSctx) (st : RepoCore)
    (hcl : repoClosed st) (hbud : st.jobKeys.length + s.jobIds.length ≤ cap) (k : Nat) :
    repoClosed (runOps cap st ((opsOfAdd s).take k)) ∧
    (∀ x ∈ st.jobKeys, x ∈ (runOps cap st ((opsOfAdd s).take k)).jobKeys) ∧
    (∀ x ∈ st.queueKeys, x ∈ (runOps cap st ((opsOfAdd s).take k)).queueKeys) ∧
    (runOps cap st ((opsOfAdd s).take k)).jobKeys.length
      ≤ st.jobKeys.length + s.jobIds.length := by
  unfold opsOfAdd
  rw [List.take_append_eq_append_take, runOps_append, ← List.map_take, runOps_storeJobs,
    List.length_map]
  cases hm : k - s.jobIds.length with
  | zero =>
    simp only [List.take_zero, runOps, List.foldl_nil]
    have htk : (s.jobIds.take k).length ≤ s.jobIds.length := by
      rw [List.length_take]; exact min_le_right _ _
    obtain ⟨m1, m2, m3⟩ := jobFold_mem cap (s.jobIds.take k) st.jobKeys (by omega)
    refine ⟨?_, m1, fun x hx => hx, by omega⟩
    intro s' hs'
    obtain ⟨hq, hj⟩ := hcl s' hs'
    exact ⟨fun q hq' => hq q hq', fun j hj' => m1 j (hj j hj')⟩
  | succ m =>
    have hk : s.jobIds.length < k := by omega
    rw [List.take_of_length_le (Nat.le_of_lt hk)]
    obtain ⟨f1, f2, f3⟩ := jobFold_mem cap s.jobIds st.jobKeys hbud
    cases m with
    | zero =>
      simp only [List.take_succ_cons, List.take_zero, runOps, List.foldl_cons,
        List.foldl_nil, applyOp]
      refine ⟨?_, f1, fun x hx => List.mem_append_left _ hx, f3⟩
      intro s' hs'
      obtain ⟨hq, hj⟩ := hcl s' hs'
      exact ⟨fun q hq' => List.mem_append_left _ (hq q hq'), fun j hj' => f1 j (hj j hj')⟩
    | succ m2 =>
      simp only [List.take_succ_cons, List.take_nil, runOps, List.foldl_cons,
        List.foldl_nil, applyOp]
      refine ⟨?_, f1, fun x hx => List.mem_append_left _ hx, f3⟩
      intro s' hs'
      rcases List.mem_append.mp hs' with hs1 | hs2
      · obtain ⟨hq, hj⟩ := hcl s' hs1
        exact ⟨fun q hq' => List.mem_append_left _ (hq q hq'), fun j hj' => f1 j (hj j hj')⟩
      · have hss : s' = s := by simpa using hs2
        subst hss
        exact ⟨fun q hq' => List.mem_append_right _ hq', fun j hj' => f2 j hj'⟩

/-- Any prefix of one AddSchedulingContext publication preserves the queue
half of reader-closure unconditionally: job insertions touch neither the
queue keys nor the stored contexts, the queue keys only grow, and a
scheduling context is stored only after the step that publishes its queue
keys. -/
theorem runOps_add_queueClosed (cap : Nat) (s : StoredSctx) (st : RepoCore)
    (hcl : queueClosed st) (k : Nat) :
    queueClosed (runOps cap st ((opsOfAdd s).take k)) ∧
    (∀ x ∈ st.queueKeys, x ∈ (runOps cap st ((opsOfAdd s).take k)).queueKeys) := by
  unfold opsOfAdd
  rw [List.take_append_eq_append_take, runOps_append, ← List.map_take, runOps_storeJobs,
    List.length_map]
  cases hm : k - s.jobIds.length with
  | zero =>
    simp only [List.take_zero, runOps, List.foldl_nil]
    exact ⟨fun s' hs' q hq => hcl s' hs' q hq, fun x hx => hx⟩
  | succ m =>
    cases m with
    | zero =>
      simp only [List.take_succ_cons, List.take_zero, runOps, List.foldl_cons,
        List.foldl_nil, applyOp]
      exact ⟨fun s' hs' q hq => List.mem_append_left _ (hcl s' hs' q hq),
        fun x hx => List.mem_append_left _ hx⟩
    | succ m2 =>
      simp only [List.take_succ_cons, List.take_nil, runOps, List.foldl_cons,
        List.foldl_nil, applyOp]
      refine ⟨?_, fun x hx => List.mem_append_left _ hx⟩
      intro s' hs' q hq
      rcases List.mem_append.mp hs' with hs1 | hs2
      · exact List.mem_append_left _ (hcl s' hs1 q hq)
      · have hss : s' = s := by simpa using hs2
        subst hss
        exact List.mem_append_right _ hq

/-- A sequence of complete AddSchedulingContext calls preserves the queue
half of reader-closure, with no capacity proviso. -/
theorem repoFold_queueClosed (cap : Nat) (ws : List StoredSctx) :
    ∀ st : RepoCore, queueClosed st →
      queueClosed (ws.foldl (fun st' s => runOps cap st' (opsOfAdd s)) st) := by
  induction ws with
  | nil => intro st hcl; exact hcl
  | cons s rest ih =>
    intro st hcl
    rw [List.foldl_cons]
    have h := runOps_add_queueClosed cap s st hcl (opsOfAdd s).length
    rw [List.take_length] at h
    exact ih _ h.1

/-- The state after any full history of writers satisfies the queue half of
reader-closure, with no capacity proviso. -/
theorem repoStateAfter_queueClosed (cap : Nat) (ws : List StoredSctx) :
    queueClosed (repoStateAfter cap ws) :=
  repoFold_queueClosed cap ws emptyRepoCore fun s hs => absurd hs (List.not_mem_nil s)

/-- A sequence of complete AddSchedulingContext calls preserves
reader-closure as long as the total number of job insertions fits the LRU
capacity. -/
theorem repoFold_closed (cap : Nat) (ws : List StoredSctx) :
    ∀ st : RepoCore, repoClosed st → st.jobKeys.length + totalJobStores ws ≤ cap →
      repoClosed (ws.foldl (fun st' s => runOps cap st' (opsOfAdd s)) st) ∧
      (ws.foldl (fun st' s => runOps cap st' (opsOfAdd s)) st).jobKeys.length
        ≤ st.jobKeys.length + totalJobStores ws := by
  induction ws with
  | nil =>
    intro st hcl _
    exact ⟨hcl, by simp [totalJobStores]⟩
  | cons s rest ih =>
    intro st hcl hbud
    have htot : totalJobStores (s :: rest) = s.jobIds.length + totalJobStores rest := by
      unfold totalJobStores
      rw [List.map_cons, List.sum_cons]
    rw [htot] at hbud
    rw [List.foldl_cons]
    have hfull := runOps_add_closed cap s st hcl (by omega) (opsOfAdd s).length
    rw [List.take_length] at hfull
    obtain ⟨hcl1, _, _, hlen1⟩ := hfull
    obtain ⟨hcl2, hlen2⟩ := ih (runOps cap st (opsOfAdd s)) hcl1 (by omega)
    refine ⟨hcl2, by rw [htot]; omega⟩

/-- The state after a full history of writers is reader-closed when the job
insertions fit the LRU capacity. -/
theorem repoStateAfter_closed (cap : Nat) (ws : List StoredSctx)
    (h : totalJobStores ws ≤ cap) :
    repoClosed (repoStateAfter cap ws) ∧
    (repoStateAfter cap ws).jobKeys.length ≤ totalJobStores ws := by
  have he : repoClosed emptyRepoCore := fun s hs => absurd hs (List.not_mem_nil s)
  have := repoFold_closed cap ws emptyRepoCore he (by simpa [emptyRepoCore] using h)
  simpa [repoStateAfter, emptyRepoCore] using this

/-- C5 (counterexample).  The claim fails on the code because the job
contexts are stored in a bounded LRU cache: with capacity 1, a single
AddSchedulingContext call that stores a scheduling context referencing two
job contexts evicts the first job context before the scheduling context is
published, so a reader observing the stored scheduling context does not
find job context "a" in the published job map. -/
theorem addSchedulingContext_closure_fails_on_eviction :
    ¬ repoClosed (observedRepoState 1 [] (StoredSctx.mk ["q"] ["a", "b"]) 4) := by
  decide

/-- C5 (amended).  AddSchedulingContext stores the extracted job scheduling
contexts first, then the queue scheduling contexts, then the scheduling
context itself, so in every state a lock-free reader can observe — after any
number of complete writers and any prefix of the atomic steps of the next
writer, with or without LRU evictions — a stored SchedulingContext
references only queue keys present in the published queue maps; and,
provided the total number of job contexts stored does not exceed the LRU
cache capacity (so no eviction has occurred), it also references only job
ids present in the published job map. -/
theorem addSchedulingContext_closure (cap : Nat) (ws : List StoredSctx) (w : StoredSctx)
    (k : Nat) :
    queueClosed (observedRepoState cap ws w k) ∧
    (totalJobStores (ws ++ [w]) ≤ cap → repoClosed (observedRepoState cap ws w k)) := by
  constructor
  · exact (runOps_add_queueClosed cap w (repoStateAfter cap ws)
      (repoStateAfter_queueClosed cap ws) k).1
  · intro h
    have htot : totalJobStores (ws ++ [w]) = totalJobStores ws + w.jobIds.length := by
      unfold totalJobStores
      rw [List.map_append, List.sum_append]
      simp
    rw [htot] at h
    obtain ⟨hcl, hlen⟩ := repoStateAfter_closed cap ws (by omega)
    exact (runOps_add_closed cap w (repoStateAfter cap ws) hcl (by omega) k).1

/-- Witness for C5 (amended): queue closure holds even for the evicting
history of the counterexample (capacity 1, two job contexts), and under
capacity 2 the same write evicts nothing, so the observed final state is
fully closed. -/
theorem addSchedulingContext_closure_witness :
    queueClosed (observedRepoState 1 [] (StoredSctx.mk ["q"] ["a", "b"]) 4) ∧
    repoClosed (observedRepoState 2 [] (StoredSctx.mk ["q"] ["a", "b"]) 4) :=
  ⟨(addSchedulingContext_closure 1 [] (StoredSctx.mk ["q"] ["a", "b"]) 4).1,
    (addSchedulingContext_closure 2 [] (StoredSctx.mk ["q"] ["a", "b"]) 4).2 (by decide)⟩

/-- C9.  When the repository holds nothing for the requested queue or job,
the public report queries return a non-error report whose entries read as
absent: every executor block of the queue report carries the literal
": none" attempt lines, every executor line of the job report carries the
literal ": no recent attempt" line (for any job id that parses as a ULID),
and the scheduling report never returns an error. -/
theorem report_queries_absent_noerror :
    (∀ (repo : ReportRepo) (queueName : String),
      lookupA (trimSpace queueName) repo.qctxByExecutorByQueue = none →
      lookupA (trimSpace queueName) repo.successfulQctxByExecutorByQueue = none →
      lookupA (trimSpace queueName) repo.preemptingQctxByExecutorByQueue = none →
      GetQueueReport repo queueName =
        .ok (String.join (repo.sortedExecutorIds.map fun ex =>
          ex ++ ":\n"
            ++ attemptLine "Most recent attempt" none
            ++ attemptLine "Most recent successful attempt" none
            ++ attemptLine "Most recent preempting attempt" none))) ∧
    (∀ (repo : ReportRepo) (requestJobId : String),
      ulidParseOk (trimSpace requestJobId) = true →
      lookupA (trimSpace requestJobId) repo.jctxByExecutorByJobId = none →
      GetJobReport repo requestJobId =
        .ok (String.join (repo.sortedExecutorIds.map fun ex =>
          ex ++ ": no recent attempt\n"))) ∧
    (∀ repo : ReportRepo, ∃ s, GetSchedulingReport repo = .ok s) := by
  refine ⟨?_, ?_, fun repo => ⟨_, rfl⟩⟩
  · intro repo queueName h1 h2 h3
    unfold GetQueueReport getQueueReportString queueReportEntry
    simp only [h1, h2, h3, Option.none_bind, Option.map_none']
  · intro repo requestJobId hul h
    unfold GetJobReport
    rw [if_pos hul]
    unfold getJobReportString
    simp only [h, Option.none_bind]

/-- Witness for C9: a repository with one known executor and nothing stored
answers all three queries without error, with the literal absent markers. -/
theorem report_queries_absent_noerror_witness :
    GetQueueReport emptyReportRepo "queue-a" =
      Except.ok ("executor:\n\tMost recent attempt: none\n\tMost recent successful attempt: none\n\tMost recent preempting attempt: none\n") ∧
    GetJobReport emptyReportRepo "01ARZ3NDEKTSV4RRFFQ69G5FAV" =
      Except.ok "executor: no recent attempt\n" := by
  constructor
  · rw [report_queries_absent_noerror.1 emptyReportRepo "queue-a" rfl rfl rfl]
    rfl
  · rw [report_queries_absent_noerror.2.1 emptyReportRepo "01ARZ3NDEKTSV4RRFFQ69G5FAV"
      (by decide) rfl]
    rfl

/-- C10.  GetJobReport returns an InvalidArgument error, and produces no
report, for every request whose job id (after trimming whitespace) does not
parse as a ULID; for every job id that does parse as a ULID it returns a
report and no error, whatever is stored in the repository. -/
theorem getJobReport_ulid_validation :
    ∀ (repo : ReportRepo) (req : String),
      (ulidParseOk (trimSpace req) = false →
        GetJobReport repo req = .error (.invalidArgument "jobId" req)) ∧
      (ulidParseOk (trimSpace req) = true →
        GetJobReport repo req = .ok (getJobReportString repo (trimSpace req))) := by
  intro repo req
  constructor
  · intro h
    unfold GetJobReport
    rw [if_neg (by simp [h])]
  · intro h
    unfold GetJobReport
    rw [if_pos h]

/-- Witness for C10: a malformed job id is rejected as InvalidArgument; a
well-formed ULID is answered with a report even though nothing is stored. -/
theorem getJobReport_ulid_validation_witness :
    GetJobReport emptyReportRepo "not-a-ulid" =
      Except.error (ReportErr.invalidArgument "jobId" "not-a-ulid") ∧
    GetJobReport emptyReportRepo "01ARZ3NDEKTSV4RRFFQ69G5FAV" =
      Except.ok "executor: no recent attempt\n" := by
  constructor
  · exact (getJobReport_ulid_validation emptyReportRepo "not-a-ulid").1 (by decide)
  · rw [(getJobReport_ulid_validation emptyReportRepo "01ARZ3NDEKTSV4RRFFQ69G5FAV").2 (by decide)]
    rfl

end ArmadaSpec
